import Mathlib

/-!
Verification of the message codec in `src/bridge/src/message_to_mainnet.rs`
(parity-bridge).  The Rust module defines the struct `MessageToMainnet`
(the spec's `RelayMessage`), the constant `MESSAGE_LENGTH`, the
constructors `from_bytes` and `from_log`, and the exporters `to_bytes`
and `to_payload`.  Bytes are modelled as `Fin 256`, `U256` values as
`Nat` (the well-formedness predicate records the 256-bit bound that the
Rust `U256` type enforces), and the fatal length assertion in
`from_bytes` as an `Option` (`none` = abort).
-/

/-- A byte, as stored in Rust `Vec<u8>` / `[u8; N]`. -/
abbrev Byte := Fin 256

/-- Big-endian byte string of a given width: for width `w + 1` the most
significant byte `n / 256 ^ w % 256` comes first.  This is the semantics
of `ethereum_types::U256::to_big_endian` writing into a `w`-byte slice. -/
def bigEndianBytes : Nat → Nat → List Byte
  | 0, _ => []
  | w + 1, n => ⟨n / 256 ^ w % 256, Nat.mod_lt _ (by norm_num)⟩ :: bigEndianBytes w n

/-- `U256::to_big_endian` into a 32-byte slice. -/
def U256.to_big_endian (n : Nat) : List Byte :=
  bigEndianBytes 32 n

/-- `U256::from_big_endian`: interpret a byte slice as a big-endian
unsigned integer. -/
def U256.from_big_endian (bs : List Byte) : Nat :=
  bs.foldl (fun acc b => acc * 256 + b.val) 0

/-- The Rust struct `MessageToMainnet` (the spec's `RelayMessage`).
`recipient` is an `Address` (20 bytes), `sidenet_transaction_hash` an
`H256` (32 bytes), `value` and `mainnet_gas_price` are `U256`. -/
structure MessageToMainnet where
  recipient : List Byte
  value : Nat
  sidenet_transaction_hash : List Byte
  mainnet_gas_price : Nat
  deriving DecidableEq, Repr

/-- The invariants the Rust field types `Address`, `U256`, `H256`, `U256`
impose: fixed byte lengths and 256-bit integer bounds. -/
def MessageToMainnet.WellFormed (m : MessageToMainnet) : Prop :=
  m.recipient.length = 20 ∧ m.value < 2 ^ 256 ∧
    m.sidenet_transaction_hash.length = 32 ∧ m.mainnet_gas_price < 2 ^ 256

instance (m : MessageToMainnet) : Decidable m.WellFormed := by
  unfold MessageToMainnet.WellFormed; infer_instance

/-- `pub const MESSAGE_LENGTH: usize = 116;` -/
def MESSAGE_LENGTH : Nat := 116

/-- `MessageToMainnet::from_bytes`.  The Rust function asserts
`bytes.len() == MESSAGE_LENGTH` (a fatal abort on violation, modelled as
`none`) and then slices: `bytes[0..20]` into `recipient`,
`bytes[20..52]` big-endian into `value`, `bytes[52..84]` into
`sidenet_transaction_hash`, `bytes[84..MESSAGE_LENGTH]` big-endian into
`mainnet_gas_price`. -/
def MessageToMainnet.from_bytes (bytes : List Byte) : Option MessageToMainnet :=
  if bytes.length = MESSAGE_LENGTH then
    some
      { recipient := bytes.take 20
        value := U256.from_big_endian ((bytes.drop 20).take 32)
        sidenet_transaction_hash := (bytes.drop 52).take 32
        mainnet_gas_price := U256.from_big_endian ((bytes.drop 84).take 32) }
  else
    none

/-- `MessageToMainnet::to_bytes`: writes `recipient` into bytes 0..20,
`value` big-endian into 20..52, `sidenet_transaction_hash` into 52..84,
`mainnet_gas_price` big-endian into 84..116 of a fresh 116-byte buffer.
Since the four writes exactly tile the buffer (20 + 32 + 32 + 32 = 116),
the result is the concatenation of the four fields. -/
def MessageToMainnet.to_bytes (m : MessageToMainnet) : List Byte :=
  m.recipient ++ U256.to_big_endian m.value ++
    m.sidenet_transaction_hash ++ U256.to_big_endian m.mainnet_gas_price

/-- The errors `from_log` can return, named as in the spec:
`SchemaMismatch` wraps the underlying `ethabi` decode failure propagated
by `?`; `MissingTransactionHash` is the error built from the string
message when `transaction_hash` is `None`. -/
inductive Error where
  | SchemaMismatch (underlying : String)
  | MissingTransactionHash
  deriving DecidableEq, Repr

/-- `ethabi::RawLog`: the topics and data handed to the event decoder. -/
structure RawLog where
  topics : List (List Byte)
  data : List Byte
  deriving DecidableEq, Repr

/-- `web3::types::Log`, restricted to the fields `from_log` reads:
`topics`, `data`, and the optional `transaction_hash` (absent until the
transaction is mined). -/
structure Log where
  topics : List (List Byte)
  data : List Byte
  transaction_hash : Option (List Byte)
  deriving DecidableEq, Repr

/-- The record produced by the external `Withdraw` event decoder
(`contracts::foreign::events::Withdraw::parse_log`): fields `recipient`,
`value`, `home_gas_price`. -/
structure WithdrawLog where
  recipient : List Byte
  value : Nat
  home_gas_price : Nat
  deriving DecidableEq, Repr

/-- `MessageToMainnet::from_log`, parameterised by the external
`Withdraw::parse_log` decoder (an opaque dependency per the spec).  It
builds a `RawLog` from the log's topics and data, runs the decoder
(propagating failure as `SchemaMismatch`), requires the transaction hash
to be present (else `MissingTransactionHash`), and assembles the
message. -/
def MessageToMainnet.from_log (parse_log : RawLog → Except String WithdrawLog)
    (web3_log : Log) : Except Error MessageToMainnet :=
  match parse_log { topics := web3_log.topics, data := web3_log.data } with
  | .error e => .error (.SchemaMismatch e)
  | .ok withdraw_log =>
    match web3_log.transaction_hash with
    | none => .error .MissingTransactionHash
    | some hash =>
      .ok
        { recipient := withdraw_log.recipient
          value := withdraw_log.value
          sidenet_transaction_hash := hash
          mainnet_gas_price := withdraw_log.home_gas_price }

/-- Modelled from the spec: `ethabi::encode(&[Token::Bytes(bs)])`, the
"standard single-dynamic-`bytes`-parameter ABI encoding" (the `ethabi`
crate is an external dependency whose source is not part of this
repository).  Per the Ethereum contract ABI, encoding one dynamic
`bytes` argument produces a 32-byte head word holding the tail offset
(32), then the tail: a 32-byte length word followed by the bytes padded
with zeros to the next 32-byte boundary. -/
def ethabi.encode_single_bytes (bs : List Byte) : List Byte :=
  U256.to_big_endian 32 ++ U256.to_big_endian bs.length ++ bs ++
    List.replicate ((32 - bs.length % 32) % 32) (0 : Byte)

/-- Modelled from the spec: `ethabi::decode(&[ParamType::Bytes], data)`
followed by unwrapping the single token, i.e. "unwrapping the single
`bytes` argument".  Per the Ethereum contract ABI the decoder reads the
offset word at position 0, reads the length word at that offset, and
takes that many bytes after it, failing if the buffer is too short. -/
def ethabi.decode_single_bytes (data : List Byte) : Option (List Byte) :=
  if 32 ≤ data.length then
    if 32 ≤ (data.drop (U256.from_big_endian (data.take 32))).length then
      if U256.from_big_endian ((data.drop (U256.from_big_endian (data.take 32))).take 32) ≤
          (data.drop (U256.from_big_endian (data.take 32) + 32)).length then
        some ((data.drop (U256.from_big_endian (data.take 32) + 32)).take
          (U256.from_big_endian ((data.drop (U256.from_big_endian (data.take 32))).take 32)))
      else none
    else none
  else none

/-- `MessageToMainnet::to_payload`:
`ethabi::encode(&[ethabi::Token::Bytes(self.to_bytes())])`. -/
def MessageToMainnet.to_payload (m : MessageToMainnet) : List Byte :=
  ethabi.encode_single_bytes m.to_bytes

/-! ### Concrete values from the repository's own test vector -/

/-- The recipient `0xeac4a655451e159313c3641e29824e77d6fcb0ce` from the
module's unit test. -/
def testRecipient : List Byte :=
  [234, 196, 166, 85, 69, 30, 21, 147, 19, 195, 100, 30, 41, 130, 78, 119,
    214, 252, 176, 206]

/-- The transaction hash
`0x75ebc3036b5a5a758be9a8c0e6f6ed8d46c640dda39845de99d9570ba76798e2`
from the module's unit test. -/
def testHash : List Byte :=
  [117, 235, 195, 3, 107, 90, 90, 117, 139, 233, 168, 192, 230, 246, 237,
    141, 70, 198, 64, 221, 163, 152, 69, 222, 153, 217, 87, 11, 167, 103,
    152, 226]

/-- The message of the module's unit test: value `3800000000000000`,
gas price `8000000000`. -/
def testMessage : MessageToMainnet :=
  { recipient := testRecipient
    value := 3800000000000000
    sidenet_transaction_hash := testHash
    mainnet_gas_price := 8000000000 }

/-- A 116-byte input with distinct bytes, for instantiating theorems
about `from_bytes`. -/
def testBytes : List Byte :=
  (List.range 116).map (fun i => ⟨i % 256, Nat.mod_lt _ (by norm_num)⟩)

/-- An all-zero well-formed message. -/
def zeroMessage : MessageToMainnet :=
  { recipient := List.replicate 20 (0 : Byte)
    value := 0
    sidenet_transaction_hash := List.replicate 32 (0 : Byte)
    mainnet_gas_price := 0 }

/-- A decoder stub standing in for `Withdraw::parse_log` succeeding with
the test message's fields. -/
def testParse : RawLog → Except String WithdrawLog :=
  fun _ =>
    .ok { recipient := testRecipient
          value := 3800000000000000
          home_gas_price := 8000000000 }

/-- A mined log (transaction hash present). -/
def testLog : Log :=
  { topics := [], data := [], transaction_hash := some testHash }

/-! ### Arithmetic lemmas about the big-endian codec -/

lemma length_bigEndianBytes (w n : Nat) : (bigEndianBytes w n).length = w := by
  induction w generalizing n with
  | zero => rfl
  | succ w ih => simp [bigEndianBytes, ih]

lemma length_to_big_endian (n : Nat) : (U256.to_big_endian n).length = 32 :=
  length_bigEndianBytes 32 n

lemma foldl_be_acc (bs : List Byte) (acc : Nat) :
    bs.foldl (fun a b => a * 256 + b.val) acc =
      acc * 256 ^ bs.length + U256.from_big_endian bs := by
  induction bs generalizing acc with
  | nil => simp [U256.from_big_endian]
  | cons b bs ih =>
    show bs.foldl _ (acc * 256 + b.val) = _
    rw [ih]
    have hz : U256.from_big_endian (b :: bs) =
        b.val * 256 ^ bs.length + U256.from_big_endian bs := by
      show bs.foldl _ (0 * 256 + b.val) = _
      rw [ih]; ring
    rw [hz]
    simp [List.length_cons, pow_succ]
    ring

lemma from_big_endian_cons (b : Byte) (bs : List Byte) :
    U256.from_big_endian (b :: bs) =
      b.val * 256 ^ bs.length + U256.from_big_endian bs := by
  show bs.foldl _ (0 * 256 + b.val) = _
  rw [foldl_be_acc]; ring

lemma from_big_endian_lt (bs : List Byte) :
    U256.from_big_endian bs < 256 ^ bs.length := by
  induction bs with
  | nil => simp [U256.from_big_endian]
  | cons b bs ih =>
    rw [from_big_endian_cons]
    have hb : b.val ≤ 255 := Nat.lt_succ_iff.mp b.isLt
    calc b.val * 256 ^ bs.length + U256.from_big_endian bs
        < b.val * 256 ^ bs.length + 256 ^ bs.length := by omega
      _ = (b.val + 1) * 256 ^ bs.length := by ring
      _ ≤ 256 * 256 ^ bs.length := by
          exact Nat.mul_le_mul_right _ (by omega)
      _ = 256 ^ (b :: bs).length := by
          simp [List.length_cons, pow_succ]; ring

lemma from_big_endian_bigEndianBytes (w n : Nat) :
    U256.from_big_endian (bigEndianBytes w n) = n % 256 ^ w := by
  induction w generalizing n with
  | zero => simp [bigEndianBytes, U256.from_big_endian, Nat.mod_one]
  | succ w ih =>
    rw [show bigEndianBytes (w + 1) n =
        (⟨n / 256 ^ w % 256, Nat.mod_lt _ (by norm_num)⟩ : Byte) ::
          bigEndianBytes w n from rfl]
    rw [from_big_endian_cons, length_bigEndianBytes, ih, Nat.mod_pow_succ]
    ring

lemma bigEndianBytes_congr (w : Nat) :
    ∀ n m : Nat, n % 256 ^ w = m % 256 ^ w → bigEndianBytes w n = bigEndianBytes w m := by
  induction w with
  | zero => intro n m _; rfl
  | succ w ih =>
    intro n m h
    have hdvd : (256 : Nat) ^ w ∣ 256 ^ (w + 1) := pow_dvd_pow 256 (by omega)
    have htail : n % 256 ^ w = m % 256 ^ w := by
      rw [← Nat.mod_mod_of_dvd n hdvd, ← Nat.mod_mod_of_dvd m hdvd, h]
    have hhead : n / 256 ^ w % 256 = m / 256 ^ w % 256 := by
      have hn := Nat.mod_pow_succ (x := n) (b := 256) (k := w)
      have hm := Nat.mod_pow_succ (x := m) (b := 256) (k := w)
      have hpos : 0 < (256 : Nat) ^ w := Nat.pos_pow_of_pos w (by norm_num)
      have : 256 ^ w * (n / 256 ^ w % 256) = 256 ^ w * (m / 256 ^ w % 256) := by
        omega
      exact Nat.eq_of_mul_eq_mul_left hpos this
    show (⟨n / 256 ^ w % 256, _⟩ : Byte) :: bigEndianBytes w n =
      (⟨m / 256 ^ w % 256, _⟩ : Byte) :: bigEndianBytes w m
    rw [ih n m htail]
    congr 1
    exact Fin.ext hhead

lemma bigEndianBytes_from_big_endian :
    ∀ bs : List Byte, bigEndianBytes bs.length (U256.from_big_endian bs) = bs := by
  intro bs
  induction bs with
  | nil => rfl
  | cons b bs ih =>
    have hw := bs.length
    rw [from_big_endian_cons]
    have hr : U256.from_big_endian bs < 256 ^ bs.length := from_big_endian_lt bs
    show (⟨(b.val * 256 ^ bs.length + U256.from_big_endian bs) / 256 ^ bs.length % 256, _⟩ : Byte) ::
        bigEndianBytes bs.length (b.val * 256 ^ bs.length + U256.from_big_endian bs) = b :: bs
    have hpos : 0 < (256 : Nat) ^ bs.length := Nat.pos_pow_of_pos _ (by norm_num)
    have hhead : (b.val * 256 ^ bs.length + U256.from_big_endian bs) / 256 ^ bs.length % 256 = b.val := by
      rw [Nat.add_comm, Nat.add_mul_div_right _ _ hpos, Nat.div_eq_of_lt hr]
      simp [Nat.mod_eq_of_lt b.isLt]
    have htail : bigEndianBytes bs.length (b.val * 256 ^ bs.length + U256.from_big_endian bs) =
        bigEndianBytes bs.length (U256.from_big_endian bs) := by
      apply bigEndianBytes_congr
      rw [Nat.add_comm, Nat.add_mul_mod_self_right]
    rw [htail, ih]
    congr 1
    exact Fin.ext hhead

/-! ### Slicing the 116-byte concatenation -/

lemma from_bytes_concat (a b c d : List Byte) (ha : a.length = 20)
    (hb : b.length = 32) (hc : c.length = 32) (hd : d.length = 32) :
    MessageToMainnet.from_bytes (a ++ (b ++ (c ++ d))) =
      some ⟨a, U256.from_big_endian b, c, U256.from_big_endian d⟩ := by
  set l := a ++ (b ++ (c ++ d)) with hl
  have hlen : l.length = MESSAGE_LENGTH := by
    simp [hl, ha, hb, hc, hd, MESSAGE_LENGTH]
  have hd20 : l.drop 20 = b ++ (c ++ d) := List.drop_left' ha
  have hd52 : l.drop 52 = c ++ d := by
    have : (l.drop 20).drop 32 = l.drop 52 := List.drop_drop 32 20 l
    rw [← this, hd20, List.drop_left' hb]
  have hd84 : l.drop 84 = d := by
    have : (l.drop 52).drop 32 = l.drop 84 := List.drop_drop 32 52 l
    rw [← this, hd52, List.drop_left' hc]
  unfold MessageToMainnet.from_bytes
  rw [if_pos hlen]
  simp only [Option.some.injEq, MessageToMainnet.mk.injEq]
  refine ⟨?_, ?_, ?_, ?_⟩
  · exact List.take_left' ha
  · rw [hd20, List.take_left' hb]
  · rw [hd52, List.take_left' hc]
  · rw [hd84]
    exact congrArg _ (List.take_of_length_le (le_of_eq hd))

lemma to_bytes_assoc (m : MessageToMainnet) :
    m.to_bytes = m.recipient ++ (U256.to_big_endian m.value ++
      (m.sidenet_transaction_hash ++ U256.to_big_endian m.mainnet_gas_price)) := by
  simp [MessageToMainnet.to_bytes, List.append_assoc]

lemma from_big_endian_to_big_endian (n : Nat) (h : n < 2 ^ 256) :
    U256.from_big_endian (U256.to_big_endian n) = n := by
  unfold U256.to_big_endian
  rw [from_big_endian_bigEndianBytes]
  exact Nat.mod_eq_of_lt (by calc n < 2 ^ 256 := h
                                _ = 256 ^ 32 := by norm_num)

lemma from_bytes_to_bytes (m : MessageToMainnet) (hwf : m.WellFormed) :
    MessageToMainnet.from_bytes m.to_bytes = some m := by
  obtain ⟨h1, h2, h3, h4⟩ := hwf
  rw [to_bytes_assoc,
    from_bytes_concat _ _ _ _ h1 (length_to_big_endian _) h3 (length_to_big_endian _),
    from_big_endian_to_big_endian _ h2, from_big_endian_to_big_endian _ h4]

lemma to_big_endian_from_big_endian (bs : List Byte) (h : bs.length = 32) :
    U256.to_big_endian (U256.from_big_endian bs) = bs := by
  unfold U256.to_big_endian
  rw [← h]
  exact bigEndianBytes_from_big_endian bs

lemma to_bytes_from_bytes (b : List Byte) (h : b.length = MESSAGE_LENGTH) :
    (MessageToMainnet.from_bytes b).map MessageToMainnet.to_bytes = some b := by
  unfold MessageToMainnet.from_bytes
  rw [if_pos h]
  have hs1 : ((b.drop 20).take 32).length = 32 := by
    simp [List.length_take, List.length_drop, h, MESSAGE_LENGTH]
  have hs3 : ((b.drop 84).take 32).length = 32 := by
    simp [List.length_take, List.length_drop, h, MESSAGE_LENGTH]
  rw [Option.map_some']
  congr 1
  show (b.take 20) ++ U256.to_big_endian (U256.from_big_endian ((b.drop 20).take 32)) ++
      ((b.drop 52).take 32) ++ U256.to_big_endian (U256.from_big_endian ((b.drop 84).take 32)) = b
  rw [to_big_endian_from_big_endian _ hs1, to_big_endian_from_big_endian _ hs3]
  have h84 : (b.drop 84).take 32 = b.drop 84 := by
    apply List.take_of_length_le
    simp [List.length_drop, h, MESSAGE_LENGTH]
  have e3 : (b.drop 52).take 32 ++ (b.drop 84).take 32 = b.drop 52 := by
    rw [h84, ← List.drop_drop 32 52 b, List.take_append_drop]
  have e2 : (b.drop 20).take 32 ++ b.drop 52 = b.drop 20 := by
    rw [← List.drop_drop 32 20 b, List.take_append_drop]
  calc b.take 20 ++ (b.drop 20).take 32 ++ (b.drop 52).take 32 ++ (b.drop 84).take 32
      = b.take 20 ++ ((b.drop 20).take 32 ++ ((b.drop 52).take 32 ++ (b.drop 84).take 32)) := by
        simp [List.append_assoc]
    _ = b.take 20 ++ ((b.drop 20).take 32 ++ b.drop 52) := by rw [e3]
    _ = b.take 20 ++ b.drop 20 := by rw [e2]
    _ = b := List.take_append_drop 20 b

/-! ### Layout lemmas for `to_bytes` -/

lemma to_bytes_length (m : MessageToMainnet) (h1 : m.recipient.length = 20)
    (h3 : m.sidenet_transaction_hash.length = 32) :
    m.to_bytes.length = 116 := by
  simp [MessageToMainnet.to_bytes, h1, h3, length_to_big_endian]

lemma to_bytes_drop_20 (m : MessageToMainnet) (h1 : m.recipient.length = 20) :
    m.to_bytes.drop 20 = U256.to_big_endian m.value ++
      (m.sidenet_transaction_hash ++ U256.to_big_endian m.mainnet_gas_price) := by
  rw [to_bytes_assoc]
  exact List.drop_left' h1

lemma to_bytes_value_field (m : MessageToMainnet) (h1 : m.recipient.length = 20) :
    (m.to_bytes.drop 20).take 32 = U256.to_big_endian m.value := by
  rw [to_bytes_drop_20 m h1]
  exact List.take_left' (length_to_big_endian _)

lemma to_bytes_drop_52 (m : MessageToMainnet) (h1 : m.recipient.length = 20) :
    m.to_bytes.drop 52 = m.sidenet_transaction_hash ++
      U256.to_big_endian m.mainnet_gas_price := by
  rw [← List.drop_drop 32 20 m.to_bytes, to_bytes_drop_20 m h1]
  exact List.drop_left' (length_to_big_endian _)

lemma to_bytes_hash_field (m : MessageToMainnet) (h1 : m.recipient.length = 20)
    (h3 : m.sidenet_transaction_hash.length = 32) :
    (m.to_bytes.drop 52).take 32 = m.sidenet_transaction_hash := by
  rw [to_bytes_drop_52 m h1]
  exact List.take_left' h3

lemma to_bytes_gas_field (m : MessageToMainnet) (h1 : m.recipient.length = 20)
    (h3 : m.sidenet_transaction_hash.length = 32) :
    (m.to_bytes.drop 84).take 32 = U256.to_big_endian m.mainnet_gas_price := by
  rw [← List.drop_drop 32 52 m.to_bytes, to_bytes_drop_52 m h1, List.drop_left' h3]
  exact List.take_of_length_le (le_of_eq (length_to_big_endian _))

/-! ### The ABI payload round-trip -/

lemma decode_encode_single_bytes (bs : List Byte) (h : bs.length < 2 ^ 256) :
    ethabi.decode_single_bytes (ethabi.encode_single_bytes bs) = some bs := by
  have hassoc : ethabi.encode_single_bytes bs =
      U256.to_big_endian 32 ++ (U256.to_big_endian bs.length ++
        (bs ++ List.replicate ((32 - bs.length % 32) % 32) 0)) := by
    simp [ethabi.encode_single_bytes, List.append_assoc]
  have e_take : (ethabi.encode_single_bytes bs).take 32 = U256.to_big_endian 32 := by
    rw [hassoc]; exact List.take_left' (length_to_big_endian _)
  have e_off : U256.from_big_endian ((ethabi.encode_single_bytes bs).take 32) = 32 := by
    rw [e_take]; exact from_big_endian_to_big_endian 32 (by norm_num)
  have e_drop32 : (ethabi.encode_single_bytes bs).drop 32 =
      U256.to_big_endian bs.length ++
        (bs ++ List.replicate ((32 - bs.length % 32) % 32) 0) := by
    rw [hassoc]; exact List.drop_left' (length_to_big_endian _)
  have e_take2 : ((ethabi.encode_single_bytes bs).drop 32).take 32 =
      U256.to_big_endian bs.length := by
    rw [e_drop32]; exact List.take_left' (length_to_big_endian _)
  have e_lenw : U256.from_big_endian (((ethabi.encode_single_bytes bs).drop 32).take 32) =
      bs.length := by
    rw [e_take2]; exact from_big_endian_to_big_endian _ h
  have e_drop64 : (ethabi.encode_single_bytes bs).drop 64 =
      bs ++ List.replicate ((32 - bs.length % 32) % 32) 0 := by
    rw [← List.drop_drop 32 32 (ethabi.encode_single_bytes bs), e_drop32]
    exact List.drop_left' (length_to_big_endian _)
  have e_final : (bs ++ List.replicate ((32 - bs.length % 32) % 32) 0).take bs.length = bs :=
    List.take_left' rfl
  have e_len : 32 ≤ (ethabi.encode_single_bytes bs).length := by
    rw [hassoc]
    simp [length_to_big_endian]
  have e_len2 : 32 ≤ ((ethabi.encode_single_bytes bs).drop
      (U256.from_big_endian ((ethabi.encode_single_bytes bs).take 32))).length := by
    rw [e_off, e_drop32]
    simp [length_to_big_endian]
  have e_len3 : U256.from_big_endian (((ethabi.encode_single_bytes bs).drop
        (U256.from_big_endian ((ethabi.encode_single_bytes bs).take 32))).take 32) ≤
      ((ethabi.encode_single_bytes bs).drop
        (U256.from_big_endian ((ethabi.encode_single_bytes bs).take 32) + 32)).length := by
    rw [e_off]
    show U256.from_big_endian (((ethabi.encode_single_bytes bs).drop 32).take 32) ≤ _
    rw [e_lenw]
    show bs.length ≤ ((ethabi.encode_single_bytes bs).drop 64).length
    rw [e_drop64]
    simp
  unfold ethabi.decode_single_bytes
  rw [if_pos e_len, if_pos e_len2, if_pos e_len3, e_off]
  show some (((ethabi.encode_single_bytes bs).drop 64).take
    (U256.from_big_endian (((ethabi.encode_single_bytes bs).drop 32).take 32))) = some bs
  rw [e_lenw, e_drop64, e_final]

/-! ### The claims -/

/-- C1: for every `MessageToMainnet` (any 20-byte recipient, 256-bit
value, 32-byte transaction hash, 256-bit gas price), decoding the bytes
produced by encoding it yields a structurally equal record:
`from_bytes (to_bytes m) = some m`. -/
theorem C1_roundtrip_decode_encode (m : MessageToMainnet) (h : m.WellFormed) :
    MessageToMainnet.from_bytes m.to_bytes = some m :=
  from_bytes_to_bytes m h

theorem C1_roundtrip_decode_encode_witness :
    testMessage.WellFormed ∧
      MessageToMainnet.from_bytes testMessage.to_bytes = some testMessage :=
  ⟨by decide, C1_roundtrip_decode_encode testMessage (by decide)⟩

/-- C2: `to_bytes` always returns exactly 116 bytes, laid out as 20
bytes of recipient, then 32 bytes of big-endian value, then the 32-byte
transaction hash, then 32 bytes of big-endian gas price. -/
theorem C2_encode_length_and_layout (m : MessageToMainnet)
    (h1 : m.recipient.length = 20) (h3 : m.sidenet_transaction_hash.length = 32) :
    m.to_bytes.length = 116 ∧
      m.to_bytes.take 20 = m.recipient ∧
      (m.to_bytes.drop 20).take 32 = U256.to_big_endian m.value ∧
      (m.to_bytes.drop 52).take 32 = m.sidenet_transaction_hash ∧
      (m.to_bytes.drop 84).take 32 = U256.to_big_endian m.mainnet_gas_price := by
  refine ⟨to_bytes_length m h1 h3, ?_, to_bytes_value_field m h1,
    to_bytes_hash_field m h1 h3, to_bytes_gas_field m h1 h3⟩
  rw [to_bytes_assoc]
  exact List.take_left' h1

theorem C2_encode_length_and_layout_witness :
    testMessage.recipient.length = 20 ∧
      testMessage.sidenet_transaction_hash.length = 32 ∧
      (testMessage.to_bytes.length = 116 ∧
        testMessage.to_bytes.take 20 = testMessage.recipient ∧
        (testMessage.to_bytes.drop 20).take 32 = U256.to_big_endian testMessage.value ∧
        (testMessage.to_bytes.drop 52).take 32 = testMessage.sidenet_transaction_hash ∧
        (testMessage.to_bytes.drop 84).take 32 =
          U256.to_big_endian testMessage.mainnet_gas_price) :=
  ⟨by decide, by decide,
    C2_encode_length_and_layout testMessage (by decide) (by decide)⟩

/-- C3: on every 116-byte input, `from_bytes` returns the record whose
recipient is bytes 0..20 verbatim, whose value is bytes 20..52 read as a
big-endian unsigned integer, whose transaction hash is bytes 52..84
verbatim, and whose gas price is bytes 84..116 read as a big-endian
unsigned integer. -/
theorem C3_decode_fields (b : List Byte) (h : b.length = 116) :
    MessageToMainnet.from_bytes b = some
      { recipient := b.take 20
        value := U256.from_big_endian ((b.drop 20).take 32)
        sidenet_transaction_hash := (b.drop 52).take 32
        mainnet_gas_price := U256.from_big_endian ((b.drop 84).take 32) } := by
  unfold MessageToMainnet.from_bytes
  rw [if_pos (show b.length = MESSAGE_LENGTH from h)]

theorem C3_decode_fields_witness :
    testBytes.length = 116 ∧
      MessageToMainnet.from_bytes testBytes = some
        { recipient := testBytes.take 20
          value := U256.from_big_endian ((testBytes.drop 20).take 32)
          sidenet_transaction_hash := (testBytes.drop 52).take 32
          mainnet_gas_price := U256.from_big_endian ((testBytes.drop 84).take 32) } :=
  ⟨by decide, C3_decode_fields testBytes (by decide)⟩

/-- C4: `from_bytes` returns normally exactly on 116-byte inputs; on any
input of a different length the assertion aborts the call (modelled as
`none`) instead of returning a value. -/
theorem C4_decode_length_assertion (b : List Byte) :
    ((MessageToMainnet.from_bytes b).isSome = true ↔ b.length = 116) ∧
      (MessageToMainnet.from_bytes b = none ↔ b.length ≠ 116) := by
  unfold MessageToMainnet.from_bytes
  by_cases h : b.length = MESSAGE_LENGTH
  · rw [if_pos h]
    simp [h, show (116 : Nat) = MESSAGE_LENGTH from rfl]
  · rw [if_neg h]
    simp [h, show (116 : Nat) = MESSAGE_LENGTH from rfl]

/-- C5: `from_log` fails in exactly two ways: it returns
`SchemaMismatch e` precisely when the `Withdraw` decoder fails with `e`
on the log's topics and data, it returns `MissingTransactionHash`
precisely when the decoder succeeds but the log's transaction hash is
absent, and it succeeds in every remaining case. -/
theorem C5_from_log_error_cases (parse_log : RawLog → Except String WithdrawLog)
    (log : Log) :
    (∀ e, MessageToMainnet.from_log parse_log log = .error (.SchemaMismatch e) ↔
        parse_log { topics := log.topics, data := log.data } = .error e) ∧
      (MessageToMainnet.from_log parse_log log = .error .MissingTransactionHash ↔
        (∃ w, parse_log { topics := log.topics, data := log.data } = .ok w) ∧
          log.transaction_hash = none) ∧
      ((∃ m, MessageToMainnet.from_log parse_log log = .ok m) ↔
        (∃ w, parse_log { topics := log.topics, data := log.data } = .ok w) ∧
          log.transaction_hash.isSome = true) := by
  unfold MessageToMainnet.from_log
  cases hp : parse_log { topics := log.topics, data := log.data } with
  | error e => cases hh : log.transaction_hash <;> simp [hh]
  | ok w => cases hh : log.transaction_hash <;> simp [hh]

/-- C6: when `from_log` succeeds, the message's transaction hash is the
log's transaction hash and the remaining fields are the `recipient`,
`value` and `home_gas_price` produced by the `Withdraw` decoder. -/
theorem C6_from_log_success_fields (parse_log : RawLog → Except String WithdrawLog)
    (log : Log) (m : MessageToMainnet)
    (h : MessageToMainnet.from_log parse_log log = .ok m) :
    ∃ w hash, parse_log { topics := log.topics, data := log.data } = .ok w ∧
      log.transaction_hash = some hash ∧
      m.recipient = w.recipient ∧ m.value = w.value ∧
      m.sidenet_transaction_hash = hash ∧ m.mainnet_gas_price = w.home_gas_price := by
  unfold MessageToMainnet.from_log at h
  revert h
  cases hp : parse_log { topics := log.topics, data := log.data } with
  | error e => intro h; cases h
  | ok w =>
    cases hh : log.transaction_hash with
    | none => intro h; cases h
    | some hash =>
      intro h
      refine ⟨w, hash, rfl, rfl, ?_⟩
      cases h
      exact ⟨rfl, rfl, rfl, rfl⟩

theorem C6_from_log_success_fields_witness :
    MessageToMainnet.from_log testParse testLog = .ok testMessage ∧
      (∃ w hash, testParse { topics := testLog.topics, data := testLog.data } = .ok w ∧
        testLog.transaction_hash = some hash ∧
        testMessage.recipient = w.recipient ∧ testMessage.value = w.value ∧
        testMessage.sidenet_transaction_hash = hash ∧
        testMessage.mainnet_gas_price = w.home_gas_price) :=
  ⟨rfl, C6_from_log_success_fields testParse testLog testMessage rfl⟩

/-- C7: ABI-decoding the output of `to_payload` as a single dynamic
`bytes` parameter yields exactly the 116-byte `to_bytes m`, and decoding
those bytes yields a record equal to `m`. -/
theorem C7_payload_roundtrip (m : MessageToMainnet) (h : m.WellFormed) :
    ethabi.decode_single_bytes m.to_payload = some m.to_bytes ∧
      MessageToMainnet.from_bytes m.to_bytes = some m := by
  constructor
  · unfold MessageToMainnet.to_payload
    apply decode_encode_single_bytes
    rw [to_bytes_length m h.1 h.2.2.1]
    norm_num
  · exact from_bytes_to_bytes m h

theorem C7_payload_roundtrip_witness :
    testMessage.WellFormed ∧
      (ethabi.decode_single_bytes testMessage.to_payload = some testMessage.to_bytes ∧
        MessageToMainnet.from_bytes testMessage.to_bytes = some testMessage) :=
  ⟨by decide, C7_payload_roundtrip testMessage (by decide)⟩

/-- C8 (as stated by the claim) is false: the ABI payload does not start
with the length word.  For the all-zero message the payload is not the
length word followed by the padded 116 message bytes — the encoding
starts with a 32-byte offset word (value 32) before the length word. -/
theorem C8_payload_format_counterexample :
    ¬ (zeroMessage.to_payload =
        U256.to_big_endian zeroMessage.to_bytes.length ++
          (zeroMessage.to_bytes ++ List.replicate 12 (0 : Byte))) := by
  decide

/-- C8 (amended): `to_payload` is the single-dynamic-`bytes`-parameter
ABI encoding of the 116-byte record, structured as a 32-byte offset word
(value 32), then a length word (value 116), then the 116 message bytes
padded to the next 32-byte boundary with 12 trailing zero bytes. -/
theorem C8_payload_format (m : MessageToMainnet) (h1 : m.recipient.length = 20)
    (h3 : m.sidenet_transaction_hash.length = 32) :
    m.to_payload = U256.to_big_endian 32 ++
      (U256.to_big_endian 116 ++ (m.to_bytes ++ List.replicate 12 (0 : Byte))) := by
  unfold MessageToMainnet.to_payload ethabi.encode_single_bytes
  rw [to_bytes_length m h1 h3]
  norm_num [List.append_assoc]

theorem C8_payload_format_witness :
    testMessage.recipient.length = 20 ∧
      testMessage.sidenet_transaction_hash.length = 32 ∧
      testMessage.to_payload = U256.to_big_endian 32 ++
        (U256.to_big_endian 116 ++
          (testMessage.to_bytes ++ List.replicate 12 (0 : Byte))) :=
  ⟨by decide, by decide, C8_payload_format testMessage (by decide) (by decide)⟩

/-- C9 (as stated by the claim) is false: the value `3800000000000000`
is hex `d801472258000`, so its 32-byte big-endian field ends in the
bytes `…0d 80 14 72 25 80 00`, not in `…0d 80 14 72 25 80` as the
claim's hex string `00…000d8014722580` asserts. -/
theorem C9_value_encoding_counterexample :
    ¬ ((testMessage.to_bytes.drop 20).take 32 =
        List.replicate 26 (0 : Byte) ++ [13, 128, 20, 114, 37, 128]) := by
  decide

/-- C9 (amended): a value of `3800000000000000` (hex `d801472258000`)
encodes into the 32-byte field at offsets 20..52 as its big-endian
representation right-aligned with leading zero bytes, i.e. hex
`00…0d801472258000`: 25 zero bytes followed by
`0d 80 14 72 25 80 00`. -/
theorem C9_value_encoding (m : MessageToMainnet) (h1 : m.recipient.length = 20)
    (hv : m.value = 3800000000000000) :
    (m.to_bytes.drop 20).take 32 =
      List.replicate 25 (0 : Byte) ++ [13, 128, 20, 114, 37, 128, 0] := by
  rw [to_bytes_value_field m h1, hv]
  decide

theorem C9_value_encoding_witness :
    testMessage.recipient.length = 20 ∧
      testMessage.value = 3800000000000000 ∧
      (testMessage.to_bytes.drop 20).take 32 =
        List.replicate 25 (0 : Byte) ++ [13, 128, 20, 114, 37, 128, 0] :=
  ⟨by decide, rfl, C9_value_encoding testMessage (by decide) rfl⟩

/-- C10: for every 116-byte input `b`, re-encoding the decoded record
reproduces `b` exactly, and `b` is the encoding of exactly one message:
any well-formed message encoding to `b` is the one `from_bytes`
returns. -/
theorem C10_reverse_roundtrip (b : List Byte) (h : b.length = 116) :
    (MessageToMainnet.from_bytes b).map MessageToMainnet.to_bytes = some b ∧
      ∀ m : MessageToMainnet, m.WellFormed → m.to_bytes = b →
        MessageToMainnet.from_bytes b = some m := by
  refine ⟨to_bytes_from_bytes b h, ?_⟩
  intro m hm he
  rw [← he]
  exact from_bytes_to_bytes m hm

theorem C10_reverse_roundtrip_witness :
    testBytes.length = 116 ∧
      (MessageToMainnet.from_bytes testBytes).map MessageToMainnet.to_bytes =
        some testBytes :=
  ⟨by decide, (C10_reverse_roundtrip testBytes (by decide)).1⟩
